import Mathlib

/-!
Verification of `playhouse/sqlite_kv.py` (`KeyStore`): a key/value store
layered on a two-column SQLite table `KV(key TEXT PRIMARY KEY, value BLOB)`.

The embedding models the table as a list of rows, SQL statements as list
operations (WHERE = filter, ORDER BY key = stable sort by key, UPDATE = map,
DELETE = filter-out, INSERT OR REPLACE = remove-then-append), and Python's
`KeyError` control flow as `Except`.  `pickle` is an external library (not
part of this repository); per the spec it is an opaque reversible codec, so
it is modelled as a wrapper the store never inspects.
-/

namespace SqliteKV

/-- A Python value stored through the store, as far as the repository's
tests exercise it: strings, integers, `None`. -/
inductive PyVal where
  | str : String → PyVal
  | int : Int → PyVal
  | pyNone : PyVal
deriving DecidableEq, Repr

/-- A Python object at the store's read interface: either one stored value
(single-key access) or a Python list of stored values (set access). -/
inductive PyObj where
  | val : PyVal → PyObj
  | list : List PyVal → PyObj
deriving DecidableEq, Repr

/-- An encoded value as stored in the `value` blob column.  `pickle` is an
external collaborator (spec §1, §4.1: an opaque, reversible codec), modelled
as an opaque wrapper: the store never inspects the bytes. -/
structure Blob where
  data : PyVal
deriving DecidableEq, Repr

/-- `pickle.dumps`: encode a value (the codec is external; modelled as the
spec's opaque reversible `encode`). -/
def pickle_dumps (v : PyVal) : Blob := ⟨v⟩

/-- `pickle.loads`: decode a blob (inverse of `pickle_dumps`). -/
def pickle_loads (b : Blob) : PyVal := b.data

/-- One row of the `KV` table. -/
structure Row where
  key : String
  value : Blob
deriving DecidableEq, Repr

/-- A peewee `Leaf` expression over the key column, as used by the store:
comparisons, membership (`key << (...)`), conjunction and disjunction. -/
inductive Pred where
  | eq : String → Pred
  | ne : String → Pred
  | lt : String → Pred
  | le : String → Pred
  | gt : String → Pred
  | ge : String → Pred
  | inList : List String → Pred
  | conj : Pred → Pred → Pred
  | disj : Pred → Pred → Pred
deriving DecidableEq, Repr

/-- SQL evaluation of a key-column predicate on a row's key. -/
def Pred.eval : Pred → String → Bool
  | .eq k, x => x == k
  | .ne k, x => x != k
  | .lt k, x => decide (x < k)
  | .le k, x => decide (x ≤ k)
  | .gt k, x => decide (k < x)
  | .ge k, x => decide (k ≤ x)
  | .inList ks, x => ks.contains x
  | .conj p q, x => p.eval x && q.eval x
  | .disj p q, x => p.eval x || q.eval x

/-- A caller-supplied access expression: either a plain key literal (any
non-`Leaf` Python value used as key) or a peewee `Leaf` predicate. -/
inductive Expr where
  | lit : String → Expr
  | pred : Pred → Expr
deriving DecidableEq, Repr

/-- Python `KeyError(expr)` raised by `KeyStore.__getitem__`. -/
inductive Err where
  | keyNotFound : Expr → Err
deriving DecidableEq, Repr

/-- `KeyStore.convert_expr`: a non-`Leaf` expression becomes an equality
predicate on the key column with `is_single = True`; a `Leaf` is returned
unchanged with `is_single = False`. -/
def convert_expr : Expr → Pred × Bool
  | .lit k => (Pred.eq k, true)
  | .pred p => (p, false)

/-- A `KeyStore` bound to its table: the construction-time `ordered` flag
and the current table contents. -/
structure KeyStore where
  ordered : Bool
  table : List Row
deriving DecidableEq, Repr

namespace KeyStore

/-- Row comparison used by `ORDER BY key` (ascending lexicographic). -/
def rowLe (a b : Row) : Prop := a.key ≤ b.key

instance : DecidableRel rowLe := fun a b =>
  decidable_of_iff (a.key.toList ≤ b.key.toList) String.le_iff_toList_le.symm

instance : IsTotal Row rowLe := ⟨fun a b => le_total a.key b.key⟩

instance : IsTrans Row rowLe := ⟨fun _ _ _ h h' => le_trans h h'⟩

/-- Apply the store's ordering mode to a row list: `ORDER BY key` when the
store was constructed with `ordered=True`, engine order otherwise. -/
def order (st : KeyStore) (rows : List Row) : List Row :=
  if st.ordered then List.insertionSort rowLe rows else rows

/-- `KeyStore.query` with no WHERE clause: every row, ordered per the flag. -/
def query (st : KeyStore) : List Row :=
  st.order st.table

/-- A read with a WHERE clause (`self.query(...).where(p)`): the rows
matching `p`, ordered per the flag. -/
def read (st : KeyStore) (p : Pred) : List Row :=
  st.order (st.table.filter (fun r => p.eval r.key))

/-- `KeyStore.__getitem__`: convert the expression, read matching values,
decode each; zero matches on a single-key access raise `KeyError(expr)`, a
single-key access returns the first decoded value, a set access returns the
whole (possibly empty) list. -/
def getItem (st : KeyStore) (e : Expr) : Except Err PyObj :=
  let c := convert_expr e
  let result := (st.read c.1).map (fun r => pickle_loads r.value)
  match result, c.2 with
  | [], true => .error (.keyNotFound e)
  | v :: _, true => .ok (.val v)
  | vs, false => .ok (.list vs)

/-- `KeyStore._upsert`: `INSERT OR REPLACE` — SQLite deletes any row with
the same primary key and inserts the new row. -/
def upsert (st : KeyStore) (k : String) (v : Blob) : KeyStore :=
  { st with table := st.table.filter (fun r => r.key != k) ++ [⟨k, v⟩] }

/-- `KeyStore.__setitem__`: a `Leaf` expression performs a bulk
`UPDATE kv SET value = ? WHERE expr` (no insertion); a plain key performs an
atomic upsert. -/
def setItem (st : KeyStore) (e : Expr) (v : PyVal) : KeyStore :=
  let pickled := pickle_dumps v
  match e with
  | .pred p =>
      { st with
        table := st.table.map fun r =>
          if p.eval r.key then { r with value := pickled } else r }
  | .lit k => st.upsert k pickled

/-- `KeyStore.__delitem__`: convert the expression and delete every
matching row. -/
def delItem (st : KeyStore) (e : Expr) : KeyStore :=
  let c := convert_expr e
  { st with table := st.table.filter fun r => !(c.1.eval r.key) }

/-- `KeyStore.__contains__`: `SELECT ... WHERE key = ? ... EXISTS`. -/
def contains (st : KeyStore) (k : String) : Bool :=
  st.table.any (fun r => r.key == k)

/-- `KeyStore.__len__`: `SELECT COUNT(*)`. -/
def size (st : KeyStore) : Nat :=
  st.table.length

/-- Declared default of the `default` parameter of `KeyStore.get`
(Python: `def get(self, k, default=None)`). -/
def get_default : PyObj := PyObj.val PyVal.pyNone

/-- `KeyStore.get`: `self[k]`, returning `d` on `KeyError`. -/
def get (st : KeyStore) (e : Expr) (d : PyObj) : PyObj :=
  match st.getItem e with
  | .ok v => v
  | .error _ => d

/-- `KeyStore.pop`: inside one transaction, read `self[k]`; on `KeyError`
re-raise when no default was supplied (`default is Sentinel`, modelled as
`Option.none`) else return the default without mutating; otherwise delete
the converted expression and return the prior read. -/
def pop (st : KeyStore) (k : Expr) (d : Option PyObj) :
    Except Err (PyObj × KeyStore) :=
  let c := convert_expr k
  match st.getItem k with
  | .error err =>
      match d with
      | Option.none => .error err
      | Option.some v => .ok (v, st)
  | .ok res => .ok (res, st.delItem (.pred c.1))

/-- `KeyStore.__iter__` / `items`: every `(key, decoded value)` pair, in
query order. -/
def iter (st : KeyStore) : List (String × PyVal) :=
  st.query.map (fun r => (r.key, pickle_loads r.value))

/-- `KeyStore.keys`: the key column of every row, in query order. -/
def keys (st : KeyStore) : List String :=
  st.query.map (fun r => r.key)

/-- `KeyStore.values`: the decoded value of every row, in query order. -/
def values (st : KeyStore) : List PyVal :=
  st.query.map (fun r => pickle_loads r.value)

/-- `KeyStore.items` is an alias of full iteration. -/
def items (st : KeyStore) : List (String × PyVal) :=
  st.iter

/-- `KeyStore.clear`: unconditional `DELETE`. -/
def clear (st : KeyStore) : KeyStore :=
  { st with table := [] }

/-- A freshly constructed store over an empty table. -/
def init (ordered : Bool) : KeyStore :=
  ⟨ordered, []⟩

/-- The table's primary-key invariant: no two rows share a key. -/
def uniqueKeys (st : KeyStore) : Prop :=
  (st.table.map Row.key).Nodup

instance (st : KeyStore) : Decidable st.uniqueKeys :=
  inferInstanceAs (Decidable (st.table.map Row.key).Nodup)

/-- The states reachable through the store's public operations from a
fresh table. -/
inductive Reachable : KeyStore → Prop where
  | init : ∀ o, Reachable (KeyStore.init o)
  | set : ∀ {st} (e : Expr) (v : PyVal), Reachable st → Reachable (st.setItem e v)
  | del : ∀ {st} (e : Expr), Reachable st → Reachable (st.delItem e)
  | popStep : ∀ {st st'} (e : Expr) (d : Option PyObj) (r : PyObj),
      Reachable st → st.pop e d = .ok (r, st') → Reachable st'
  | clearStep : ∀ {st}, Reachable st → Reachable st.clear

/-! ### Basic lemmas about ordering and reads -/

theorem order_nil (st : KeyStore) : st.order [] = [] := by
  unfold order
  cases st.ordered <;> rfl

theorem order_singleton (st : KeyStore) (a : Row) : st.order [a] = [a] := by
  unfold order
  cases st.ordered <;> rfl

theorem order_perm (st : KeyStore) (rows : List Row) : (st.order rows).Perm rows := by
  unfold order
  cases st.ordered
  · exact List.Perm.refl rows
  · exact List.perm_insertionSort rowLe rows

theorem sorted_order (st : KeyStore) (h : st.ordered = true) (rows : List Row) :
    List.Sorted rowLe (st.order rows) := by
  unfold order
  rw [h]
  exact List.sorted_insertionSort rowLe rows

theorem contains_eq_false_iff (st : KeyStore) (k : String) :
    st.contains k = false ↔ ∀ r ∈ st.table, r.key ≠ k := by
  unfold contains
  simp [List.any_eq_true]

theorem read_lit_of_not_contains (st : KeyStore) (k : String)
    (h : st.contains k = false) : st.read (.eq k) = [] := by
  unfold read
  have hf : st.table.filter (fun r => (Pred.eq k).eval r.key) = [] := by
    rw [List.filter_eq_nil_iff]
    intro r hr
    simp [Pred.eval]
    exact (contains_eq_false_iff st k).mp h r hr
  rw [hf, order_nil]

theorem filter_key_eq_of_mem {l : List Row} {k : String} {b : Blob}
    (hnd : (l.map Row.key).Nodup) (hb : Row.mk k b ∈ l) :
    l.filter (fun r => (Pred.eq k).eval r.key) = [⟨k, b⟩] := by
  induction l with
  | nil => cases hb
  | cons r l ih =>
    rw [List.map_cons, List.nodup_cons] at hnd
    rcases List.mem_cons.mp hb with hr | hmem
    · subst hr
      have hrest : l.filter (fun r => (Pred.eq k).eval r.key) = [] := by
        rw [List.filter_eq_nil_iff]
        intro x hx
        simp only [Pred.eval, beq_iff_eq, decide_eq_true_eq]
        intro hxk
        apply hnd.1
        have hmap : x.key ∈ List.map Row.key l := List.mem_map_of_mem Row.key hx
        rwa [hxk] at hmap
      rw [List.filter_cons, if_pos (by simp [Pred.eval]), hrest]
    · have hkey : r.key ≠ k := by
        intro hrk
        apply hnd.1
        have hmap : Row.key ⟨k, b⟩ ∈ List.map Row.key l := List.mem_map_of_mem Row.key hmem
        rw [hrk]
        simpa using hmap
      rw [List.filter_cons]
      simp only [Pred.eval, beq_iff_eq]
      rw [if_neg (by simpa using hkey)]
      exact ih hnd.2 hmem

theorem read_lit_of_mem (st : KeyStore) {k : String} {b : Blob}
    (h : st.uniqueKeys) (hb : Row.mk k b ∈ st.table) :
    st.read (.eq k) = [⟨k, b⟩] := by
  unfold read
  rw [filter_key_eq_of_mem h hb, order_singleton]

/-! ### Lemmas about `__getitem__` -/

theorem getItem_lit_absent (st : KeyStore) (k : String)
    (h : st.contains k = false) :
    st.getItem (.lit k) = .error (.keyNotFound (.lit k)) := by
  unfold getItem
  simp [convert_expr, read_lit_of_not_contains st k h]

theorem getItem_lit_present (st : KeyStore) {k : String} {b : Blob}
    (h : st.uniqueKeys) (hb : Row.mk k b ∈ st.table) :
    st.getItem (.lit k) = .ok (.val (pickle_loads b)) := by
  unfold getItem
  simp [convert_expr, read_lit_of_mem st h hb]

theorem getItem_pred (st : KeyStore) (p : Pred) :
    st.getItem (.pred p) =
      .ok (.list ((st.read p).map (fun r => pickle_loads r.value))) := by
  unfold getItem
  cases hvs : (st.read p).map (fun r => pickle_loads r.value) <;>
    simp [convert_expr, hvs]

/-! ### Lemmas about assignment -/

theorem setItem_lit_table (st : KeyStore) (k : String) (v : PyVal) :
    (st.setItem (.lit k) v).table =
      st.table.filter (fun r => r.key != k) ++ [⟨k, pickle_dumps v⟩] := rfl

theorem setItem_pred_table (st : KeyStore) (p : Pred) (v : PyVal) :
    (st.setItem (.pred p) v).table =
      st.table.map (fun r => if p.eval r.key then ⟨r.key, pickle_dumps v⟩ else r) := rfl

theorem setItem_ordered (st : KeyStore) (e : Expr) (v : PyVal) :
    (st.setItem e v).ordered = st.ordered := by
  cases e <;> rfl

theorem read_lit_setItem_lit (st : KeyStore) (k : String) (v : PyVal) :
    (st.setItem (.lit k) v).read (.eq k) = [⟨k, pickle_dumps v⟩] := by
  unfold read
  have h : (st.setItem (.lit k) v).table.filter (fun r => (Pred.eq k).eval r.key)
      = [⟨k, pickle_dumps v⟩] := by
    rw [setItem_lit_table, List.filter_append]
    have h1 : (st.table.filter (fun r => r.key != k)).filter
        (fun r => (Pred.eq k).eval r.key) = [] := by
      rw [List.filter_eq_nil_iff]
      intro a ha
      have h2 := (List.mem_filter.mp ha).2
      simp only [Pred.eval, bne_iff_ne, ne_eq] at h2 ⊢
      simpa using h2
    rw [h1]
    simp [Pred.eval]
  rw [h, order_singleton]

theorem getItem_setItem_lit (st : KeyStore) (k : String) (v : PyVal) :
    (st.setItem (.lit k) v).getItem (.lit k) = .ok (.val v) := by
  unfold getItem
  simp [convert_expr, read_lit_setItem_lit, pickle_loads, pickle_dumps]

theorem filter_key_setItem_lit_other (st : KeyStore) {k k' : String}
    (h : k' ≠ k) (v : PyVal) :
    (st.setItem (.lit k) v).table.filter (fun r => (Pred.eq k').eval r.key) =
      st.table.filter (fun r => (Pred.eq k').eval r.key) := by
  rw [setItem_lit_table, List.filter_append]
  have h1 : List.filter (fun r => (Pred.eq k').eval r.key)
      [(⟨k, pickle_dumps v⟩ : Row)] = [] := by
    simp [Pred.eval, Ne.symm h]
  rw [h1, List.append_nil, List.filter_filter]
  apply List.filter_congr
  intro a _
  simp only [Pred.eval]
  by_cases hk : a.key = k'
  · subst hk
    simp [h]
  · simp [hk]

theorem read_lit_setItem_lit_other (st : KeyStore) {k k' : String}
    (h : k' ≠ k) (v : PyVal) :
    (st.setItem (.lit k) v).read (.eq k') = st.read (.eq k') := by
  unfold read order
  rw [setItem_ordered, filter_key_setItem_lit_other st h v]

theorem getItem_setItem_lit_other (st : KeyStore) {k k' : String}
    (h : k' ≠ k) (v : PyVal) :
    (st.setItem (.lit k) v).getItem (.lit k') = st.getItem (.lit k') := by
  unfold getItem
  simp only [convert_expr]
  rw [read_lit_setItem_lit_other st h v]

theorem setItem_pred_keys (st : KeyStore) (p : Pred) (v : PyVal) :
    (st.setItem (.pred p) v).table.map Row.key = st.table.map Row.key := by
  rw [setItem_pred_table, List.map_map]
  apply List.map_congr_left
  intro r _
  by_cases h : p.eval r.key <;> simp [h]

theorem setItem_pred_mem_matching (st : KeyStore) (p : Pred) (v : PyVal)
    {r : Row} (hr : r ∈ st.table) (hp : p.eval r.key = true) :
    Row.mk r.key (pickle_dumps v) ∈ (st.setItem (.pred p) v).table := by
  rw [setItem_pred_table]
  have hmem := List.mem_map_of_mem
    (fun r => if p.eval r.key then (⟨r.key, pickle_dumps v⟩ : Row) else r) hr
  simpa [hp] using hmem

theorem setItem_pred_mem_not_matching (st : KeyStore) (p : Pred) (v : PyVal)
    {r : Row} (hr : r ∈ st.table) (hp : p.eval r.key = false) :
    r ∈ (st.setItem (.pred p) v).table := by
  rw [setItem_pred_table]
  have hmem := List.mem_map_of_mem
    (fun r => if p.eval r.key then (⟨r.key, pickle_dumps v⟩ : Row) else r) hr
  simpa [hp] using hmem

theorem contains_setItem_pred (st : KeyStore) (p : Pred) (v : PyVal)
    (k : String) :
    (st.setItem (.pred p) v).contains k = st.contains k := by
  unfold contains
  rw [setItem_pred_table, List.any_map]
  congr 1
  funext r
  by_cases h : p.eval r.key <;> simp [Function.comp, h]

/-! ### Lemmas about deletion -/

theorem delItem_table (st : KeyStore) (e : Expr) :
    (st.delItem e).table =
      st.table.filter (fun r => !((convert_expr e).1.eval r.key)) := rfl

theorem delItem_lit_not_contains (st : KeyStore) (k : String)
    (h : st.contains k = false) : st.delItem (.lit k) = st := by
  have hf : st.table.filter
      (fun r => !((Pred.eq k).eval r.key)) = st.table := by
    rw [List.filter_eq_self]
    intro a ha
    simp only [Pred.eval, Bool.not_eq_true']
    simpa using (contains_eq_false_iff st k).mp h a ha
  show ({ st with table := st.table.filter (fun r => !((Pred.eq k).eval r.key)) } : KeyStore) = st
  rw [hf]

theorem contains_delItem_lit (st : KeyStore) (k : String) :
    (st.delItem (.lit k)).contains k = false := by
  unfold delItem contains
  rw [List.any_eq_false]
  intro r hr
  have h2 := (List.mem_filter.mp hr).2
  simp only [convert_expr, Pred.eval, Bool.not_eq_true'] at h2
  simp [h2]

/-! ### Lemmas about pop -/

theorem pop_ok_state {st st' : KeyStore} {e : Expr} {d : Option PyObj}
    {r : PyObj} (h : st.pop e d = .ok (r, st')) :
    st' = st ∨ st' = st.delItem (.pred (convert_expr e).1) := by
  unfold pop at h
  cases hg : st.getItem e with
  | error err =>
    rw [hg] at h
    cases d with
    | none => simp at h
    | some v =>
      simp only [Except.ok.injEq, Prod.mk.injEq] at h
      exact Or.inl h.2.symm
  | ok res =>
    rw [hg] at h
    simp only [Except.ok.injEq, Prod.mk.injEq] at h
    exact Or.inr h.2.symm

theorem pop_pred (st : KeyStore) (p : Pred) (d : Option PyObj) :
    st.pop (.pred p) d =
      .ok (.list ((st.read p).map (fun r => pickle_loads r.value)),
           st.delItem (.pred p)) := by
  unfold pop
  rw [getItem_pred]
  rfl

theorem pop_lit_present (st : KeyStore) {k : String} {b : Blob}
    (d : Option PyObj) (hu : st.uniqueKeys) (hb : Row.mk k b ∈ st.table) :
    st.pop (.lit k) d =
      .ok (.val (pickle_loads b), st.delItem (.pred (.eq k))) := by
  unfold pop
  rw [getItem_lit_present st hu hb]
  rfl

theorem pop_lit_absent_none (st : KeyStore) (k : String)
    (h : st.contains k = false) :
    st.pop (.lit k) Option.none = .error (.keyNotFound (.lit k)) := by
  unfold pop
  rw [getItem_lit_absent st k h]

theorem pop_lit_absent_some (st : KeyStore) (k : String) (v : PyObj)
    (h : st.contains k = false) :
    st.pop (.lit k) (Option.some v) = .ok (v, st) := by
  unfold pop
  rw [getItem_lit_absent st k h]

/-! ### Key uniqueness -/

theorem uniqueKeys_init (o : Bool) : (init o).uniqueKeys := by
  simp [uniqueKeys, init]

theorem uniqueKeys_clear (st : KeyStore) : st.clear.uniqueKeys := by
  simp [uniqueKeys, clear]

theorem uniqueKeys_delItem {st : KeyStore} (h : st.uniqueKeys) (e : Expr) :
    (st.delItem e).uniqueKeys := by
  unfold uniqueKeys
  rw [delItem_table]
  exact List.Nodup.sublist (List.Sublist.map Row.key (List.filter_sublist _)) h

theorem uniqueKeys_setItem {st : KeyStore} (h : st.uniqueKeys) (e : Expr)
    (v : PyVal) : (st.setItem e v).uniqueKeys := by
  cases e with
  | pred p =>
    unfold uniqueKeys
    rw [setItem_pred_keys]
    exact h
  | lit k =>
    unfold uniqueKeys
    rw [setItem_lit_table, List.map_append, List.nodup_append]
    refine ⟨List.Nodup.sublist (List.Sublist.map Row.key (List.filter_sublist _)) h,
      by simp, ?_⟩
    intro a ha hb
    simp only [List.map_cons, List.map_nil, List.mem_singleton] at hb
    subst hb
    obtain ⟨r, hr, hrk⟩ := List.mem_map.mp ha
    have h2 := (List.mem_filter.mp hr).2
    rw [hrk] at h2
    simp at h2

theorem uniqueKeys_pop {st st' : KeyStore} {e : Expr} {d : Option PyObj}
    {r : PyObj} (hu : st.uniqueKeys) (h : st.pop e d = .ok (r, st')) :
    st'.uniqueKeys := by
  rcases pop_ok_state h with h1 | h1 <;> subst h1
  · exact hu
  · exact uniqueKeys_delItem hu _

theorem uniqueKeys_of_reachable {st : KeyStore} (h : Reachable st) :
    st.uniqueKeys := by
  induction h with
  | init o => exact uniqueKeys_init o
  | set e v _ ih => exact uniqueKeys_setItem ih e v
  | del e _ ih => exact uniqueKeys_delItem ih e
  | popStep e d r _ hp ih => exact uniqueKeys_pop ih hp
  | clearStep _ ih => exact uniqueKeys_clear _

/-! ### Size under upsert of a present key -/

theorem length_filter_ne_add_one {l : List Row} {k : String} {b : Blob}
    (hnd : (l.map Row.key).Nodup) (hb : Row.mk k b ∈ l) :
    (l.filter (fun r => r.key != k)).length + 1 = l.length := by
  induction l with
  | nil => cases hb
  | cons r l ih =>
    rw [List.map_cons, List.nodup_cons] at hnd
    rcases List.mem_cons.mp hb with hr | hmem
    · subst hr
      rw [List.filter_cons, if_neg (by simp)]
      have hall : l.filter (fun r => r.key != k) = l := by
        rw [List.filter_eq_self]
        intro a ha
        simp only [bne_iff_ne, ne_eq]
        intro hak
        apply hnd.1
        have hmap : a.key ∈ List.map Row.key l := List.mem_map_of_mem Row.key ha
        rw [hak] at hmap
        simpa using hmap
      rw [hall]
      simp
    · have hkey : r.key ≠ k := by
        intro hrk
        apply hnd.1
        have hmap : Row.key ⟨k, b⟩ ∈ List.map Row.key l :=
          List.mem_map_of_mem Row.key hmem
        rw [hrk]
        simpa using hmap
      rw [List.filter_cons, if_pos (by simp [hkey])]
      have hlen := ih hnd.2 hmem
      simp only [List.length_cons]
      omega

theorem size_setItem_lit_of_contains {st : KeyStore} {k : String} (v : PyVal)
    (hu : st.uniqueKeys) (hc : st.contains k = true) :
    (st.setItem (.lit k) v).size = st.size := by
  obtain ⟨r, hr, hrk⟩ : ∃ r ∈ st.table, r.key = k := by
    unfold contains at hc
    simpa using hc
  obtain ⟨rk, rv⟩ := r
  simp only at hrk
  subst hrk
  unfold size
  rw [setItem_lit_table, List.length_append]
  simpa using length_filter_ne_add_one hu hr

/-! ### Concrete fixture -/

/-- A concrete store used to instantiate the theorems: unordered, holding
`a ↦ "A"` and `b ↦ 1` (the repository's test fixture). -/
def sampleStore : KeyStore :=
  ⟨false, [⟨"a", pickle_dumps (.str "A")⟩, ⟨"b", pickle_dumps (.int 1)⟩]⟩

/-! ### Claims -/

/-- C1: for a plain key literal, `__getitem__` fails with `KeyError` when
no row with that key exists, returns the exact decoded stored value when a
row exists, and `get` returns the supplied default instead of failing when
the key is absent. -/
theorem single_key_missing_and_present_contract (st : KeyStore) (k : String)
    (b : Blob) (d : PyObj) :
    (st.contains k = false →
      st.getItem (.lit k) = .error (.keyNotFound (.lit k)) ∧
      st.get (.lit k) d = d) ∧
    (st.uniqueKeys → Row.mk k b ∈ st.table →
      st.getItem (.lit k) = .ok (.val (pickle_loads b)) ∧
      st.get (.lit k) d = .val (pickle_loads b)) := by
  constructor
  · intro h
    have hg := getItem_lit_absent st k h
    refine ⟨hg, ?_⟩
    unfold get
    rw [hg]
  · intro hu hb
    have hg := getItem_lit_present st hu hb
    refine ⟨hg, ?_⟩
    unfold get
    rw [hg]

theorem single_key_missing_and_present_contract_witness :
    sampleStore.getItem (.lit "c") = .error (.keyNotFound (.lit "c")) ∧
    sampleStore.get (.lit "c") (.val (.str "q")) = .val (.str "q") ∧
    sampleStore.getItem (.lit "a") = .ok (.val (.str "A")) ∧
    sampleStore.get (.lit "a") (.val (.str "q")) = .val (.str "A") := by
  have h1 := (single_key_missing_and_present_contract sampleStore "c"
    ⟨.pyNone⟩ (.val (.str "q"))).1 (by decide)
  have h2 := (single_key_missing_and_present_contract sampleStore "a"
    (pickle_dumps (.str "A")) (.val (.str "q"))).2 (by decide) (by decide)
  exact ⟨h1.1, h1.2, h2.1, h2.2⟩

/-- C2: a set-predicate access never fails: `__getitem__` returns the
decoded values of all matching rows, in the order of the underlying read,
as a possibly empty list, and `get` with a set-predicate returns that same
list, ignoring the supplied default. -/
theorem set_predicate_get_never_fails (st : KeyStore) (p : Pred) (d : PyObj) :
    st.getItem (.pred p) =
      .ok (.list ((st.read p).map (fun r => pickle_loads r.value))) ∧
    ((∀ r ∈ st.table, p.eval r.key = false) →
      st.getItem (.pred p) = .ok (.list [])) ∧
    st.get (.pred p) d =
      .list ((st.read p).map (fun r => pickle_loads r.value)) := by
  refine ⟨getItem_pred st p, ?_, ?_⟩
  · intro h
    have hf : st.table.filter (fun r => p.eval r.key) = [] := by
      rw [List.filter_eq_nil_iff]
      intro a ha
      simp [h a ha]
    rw [getItem_pred]
    unfold read
    rw [hf, order_nil]
    rfl
  · unfold get
    rw [getItem_pred st p]

theorem set_predicate_get_never_fails_witness :
    sampleStore.getItem (.pred (.inList ["a", "c"])) =
      .ok (.list [.str "A"]) ∧
    sampleStore.getItem (.pred (.inList ["x", "y"])) = .ok (.list []) ∧
    sampleStore.get (.pred (.inList ["x", "y"])) (.val (.str "q")) =
      .list [] := by
  have h1 := set_predicate_get_never_fails sampleStore (.inList ["a", "c"])
    (.val (.str "q"))
  have h2 := set_predicate_get_never_fails sampleStore (.inList ["x", "y"])
    (.val (.str "q"))
  exact ⟨h1.1, h2.2.1 (by decide), h2.2.2⟩

/-- C6: the predicate translation `convert_expr` turns a plain key literal
into an equality predicate on the key column with `is_single = true`, and
returns a structured predicate over the key column unchanged with
`is_single = false`. -/
theorem convert_expr_contract (k x : String) (p : Pred) :
    convert_expr (.lit k) = (Pred.eq k, true) ∧
    (convert_expr (.lit k)).1.eval x = (x == k) ∧
    convert_expr (.pred p) = (p, false) :=
  ⟨rfl, rfl, rfl⟩

/-- C10: the `default` parameter of `get` is optional with declared default
`None`: for an absent single key, `get` called with that default returns
`None`, while the strict accessor `__getitem__` fails with `KeyError`. -/
theorem get_default_returns_none (st : KeyStore) (k : String)
    (h : st.contains k = false) :
    st.get (.lit k) get_default = PyObj.val PyVal.pyNone ∧
    st.getItem (.lit k) = .error (.keyNotFound (.lit k)) := by
  have hg := getItem_lit_absent st k h
  refine ⟨?_, hg⟩
  unfold get
  rw [hg]
  rfl

theorem get_default_returns_none_witness :
    sampleStore.get (.lit "x") get_default = PyObj.val PyVal.pyNone ∧
    sampleStore.getItem (.lit "x") = .error (.keyNotFound (.lit "x")) :=
  get_default_returns_none sampleStore "x" (by decide)

/-- C3: point assignment performs an atomic upsert — afterwards the key
maps to the new value and reads of every other key are unchanged — while
set-predicate assignment replaces the value of every matching row, keeps
the key column and row count unchanged, leaves non-matching rows intact,
and never creates rows for absent keys. -/
theorem set_point_upsert_and_bulk_update (st : KeyStore) (k k' : String)
    (p : Pred) (v : PyVal) :
    ((st.setItem (.lit k) v).getItem (.lit k) = .ok (.val v)) ∧
    ((st.setItem (.lit k) v).contains k = true) ∧
    (k' ≠ k →
      (st.setItem (.lit k) v).getItem (.lit k') = st.getItem (.lit k')) ∧
    ((st.setItem (.pred p) v).table.map Row.key = st.table.map Row.key) ∧
    ((st.setItem (.pred p) v).size = st.size) ∧
    (∀ r ∈ st.table, p.eval r.key = true →
      Row.mk r.key (pickle_dumps v) ∈ (st.setItem (.pred p) v).table) ∧
    (∀ r ∈ st.table, p.eval r.key = false →
      r ∈ (st.setItem (.pred p) v).table) ∧
    ((st.setItem (.pred p) v).contains k' = st.contains k') := by
  refine ⟨getItem_setItem_lit st k v, ?_, fun h => getItem_setItem_lit_other st h v,
    setItem_pred_keys st p v, ?_,
    fun r hr hp => setItem_pred_mem_matching st p v hr hp,
    fun r hr hp => setItem_pred_mem_not_matching st p v hr hp,
    contains_setItem_pred st p v k'⟩
  · unfold contains
    rw [setItem_lit_table, List.any_append]
    simp
  · unfold size
    rw [setItem_pred_table, List.length_map]

theorem set_point_upsert_and_bulk_update_witness :
    ((sampleStore.setItem (.lit "c") (.str "C")).getItem (.lit "c") =
      .ok (.val (.str "C"))) ∧
    ((sampleStore.setItem (.lit "a") (.str "X")).getItem (.lit "b") =
      sampleStore.getItem (.lit "b")) ∧
    ((sampleStore.setItem (.pred (.inList ["a", "c"])) (.str "X")).table.map
      Row.key = sampleStore.table.map Row.key) ∧
    (Row.mk "a" (pickle_dumps (.str "X")) ∈
      (sampleStore.setItem (.pred (.inList ["a", "c"])) (.str "X")).table) ∧
    ((sampleStore.setItem (.pred (.inList ["a", "c"])) (.str "X")).contains
      "c" = sampleStore.contains "c") := by
  have h1 := set_point_upsert_and_bulk_update sampleStore "c" "b"
    (.inList ["a", "c"]) (.str "C")
  have h2 := set_point_upsert_and_bulk_update sampleStore "a" "b"
    (.inList ["a", "c"]) (.str "X")
  have h3 := set_point_upsert_and_bulk_update sampleStore "a" "c"
    (.inList ["a", "c"]) (.str "X")
  refine ⟨h1.1, h2.2.2.1 (by decide), h2.2.2.2.1, ?_, h3.2.2.2.2.2.2.2⟩
  exact h2.2.2.2.2.2.1 ⟨"a", pickle_dumps (.str "A")⟩ (by decide) (by decide)

/-- C4: popping a present key returns its prior decoded value and deletes
its row, so that a subsequent lookup of that key fails with `KeyError`; a
set-predicate pop returns the decoded values of all matching rows in read
order and deletes every matching row. -/
theorem pop_returns_prior_and_deletes (st : KeyStore) (k : String) (b : Blob)
    (p : Pred) (d : Option PyObj) :
    (st.uniqueKeys → Row.mk k b ∈ st.table →
      st.pop (.lit k) d =
        .ok (.val (pickle_loads b), st.delItem (.pred (.eq k))) ∧
      (st.delItem (.pred (.eq k))).getItem (.lit k) =
        .error (.keyNotFound (.lit k))) ∧
    (st.pop (.pred p) d =
      .ok (.list ((st.read p).map (fun r => pickle_loads r.value)),
           st.delItem (.pred p)) ∧
     (st.delItem (.pred p)).table =
       st.table.filter (fun r => !(p.eval r.key))) := by
  constructor
  · intro hu hb
    refine ⟨pop_lit_present st d hu hb, ?_⟩
    apply getItem_lit_absent
    exact contains_delItem_lit st k
  · exact ⟨pop_pred st p d, rfl⟩

theorem pop_returns_prior_and_deletes_witness :
    (sampleStore.pop (.lit "a") Option.none =
      .ok (.val (.str "A"), sampleStore.delItem (.pred (.eq "a")))) ∧
    ((sampleStore.delItem (.pred (.eq "a"))).getItem (.lit "a") =
      .error (.keyNotFound (.lit "a"))) ∧
    (sampleStore.pop (.pred (.inList ["a", "b"])) Option.none =
      .ok (.list [.str "A", .int 1],
           sampleStore.delItem (.pred (.inList ["a", "b"])))) := by
  have h := pop_returns_prior_and_deletes sampleStore "a"
    (pickle_dumps (.str "A")) (.inList ["a", "b"]) Option.none
  have h1 := h.1 (by decide) (by decide)
  exact ⟨h1.1, h1.2, h.2.1⟩

/-- C5: popping an absent single key fails with `KeyError` when no default
was supplied and returns the supplied default with the store unchanged
otherwise; a set-predicate pop with zero matches never fails and returns an
empty list with the store unchanged, whether or not a default was given. -/
theorem pop_absent_semantics (st : KeyStore) (k : String) (v : PyObj)
    (p : Pred) (d : Option PyObj) :
    (st.contains k = false →
      st.pop (.lit k) Option.none = .error (.keyNotFound (.lit k)) ∧
      st.pop (.lit k) (Option.some v) = .ok (v, st)) ∧
    ((∀ r ∈ st.table, p.eval r.key = false) →
      st.pop (.pred p) d = .ok (.list [], st)) := by
  constructor
  · intro h
    exact ⟨pop_lit_absent_none st k h, pop_lit_absent_some st k v h⟩
  · intro h
    rw [pop_pred]
    have hf : st.table.filter (fun r => p.eval r.key) = [] := by
      rw [List.filter_eq_nil_iff]
      intro a ha
      simp [h a ha]
    have hread : st.read p = [] := by
      unfold read
      rw [hf, order_nil]
    have hdel : st.delItem (.pred p) = st := by
      have hf2 : st.table.filter (fun r => !(p.eval r.key)) = st.table := by
        rw [List.filter_eq_self]
        intro a ha
        simp [h a ha]
      show ({ st with table := st.table.filter (fun r => !(p.eval r.key)) } :
        KeyStore) = st
      rw [hf2]
    rw [hread, hdel]
    rfl

theorem pop_absent_semantics_witness :
    (sampleStore.pop (.lit "x") Option.none =
      .error (.keyNotFound (.lit "x"))) ∧
    (sampleStore.pop (.lit "x") (Option.some (.val (.str "y"))) =
      .ok (.val (.str "y"), sampleStore)) ∧
    (sampleStore.pop (.pred (.inList ["x", "y"])) Option.none =
      .ok (.list [], sampleStore)) ∧
    (sampleStore.pop (.pred (.inList ["x", "y"]))
      (Option.some (.val (.str "y"))) = .ok (.list [], sampleStore)) := by
  have h1 := (pop_absent_semantics sampleStore "x" (.val (.str "y"))
    (.inList ["x", "y"]) Option.none).1 (by decide)
  have h2 := (pop_absent_semantics sampleStore "x" (.val (.str "y"))
    (.inList ["x", "y"]) Option.none).2 (by decide)
  have h3 := (pop_absent_semantics sampleStore "x" (.val (.str "y"))
    (.inList ["x", "y"]) (Option.some (.val (.str "y")))).2 (by decide)
  exact ⟨h1.1, h1.2, h2, h3⟩

/-- C7: with `ordered = true`, every multi-row read yields its rows sorted
by key in ascending lexicographic order — the full query (underlying
`iterate`/`keys`/`values`/`items`) and any predicate read (underlying a
set-predicate get/pop); in particular, after inserting keys c, a, b,
`keys` yields `[a, b, c]`. -/
theorem ordered_reads_sorted_by_key (st : KeyStore) (p : Pred)
    (h : st.ordered = true) :
    List.Sorted rowLe st.query ∧
    List.Sorted rowLe (st.read p) ∧
    List.Sorted (· ≤ ·) st.keys ∧
    List.Sorted (· ≤ ·) (st.iter.map Prod.fst) ∧
    st.items = st.iter ∧
    st.values = st.query.map (fun r => pickle_loads r.value) ∧
    ((((init true).setItem (.lit "c") (.str "C")).setItem (.lit "a")
        (.str "A")).setItem (.lit "b") (.str "B")).keys = ["a", "b", "c"] := by
  refine ⟨sorted_order st h _, sorted_order st h _, ?_, ?_, rfl, rfl, by decide⟩
  · unfold keys query
    exact List.Pairwise.map _ (fun a b hab => hab) (sorted_order st h _)
  · unfold iter query
    rw [List.map_map]
    exact List.Pairwise.map _ (fun a b hab => hab) (sorted_order st h _)

theorem ordered_reads_sorted_by_key_witness :
    List.Sorted (· ≤ ·)
      (KeyStore.mk true [⟨"c", pickle_dumps (.str "C")⟩,
        ⟨"a", pickle_dumps (.str "A")⟩, ⟨"b", pickle_dumps (.str "B")⟩]).keys ∧
    ((((init true).setItem (.lit "c") (.str "C")).setItem (.lit "a")
        (.str "A")).setItem (.lit "b") (.str "B")).keys = ["a", "b", "c"] := by
  have h := ordered_reads_sorted_by_key
    (KeyStore.mk true [⟨"c", pickle_dumps (.str "C")⟩,
      ⟨"a", pickle_dumps (.str "A")⟩, ⟨"b", pickle_dumps (.str "B")⟩])
    (.eq "a") rfl
  exact ⟨h.2.2.1, h.2.2.2.2.2.2⟩

/-- C8: deletion removes exactly the rows matching the translated
predicate — every surviving row is an original non-matching row and every
original non-matching row survives — and deleting a non-existent key is a
no-op that leaves the store unchanged (deletion is total: no error). -/
theorem delete_matching_rows (st : KeyStore) (e : Expr) (k : String) :
    (st.delItem e).table =
      st.table.filter (fun r => !((convert_expr e).1.eval r.key)) ∧
    (∀ r ∈ (st.delItem e).table,
      r ∈ st.table ∧ (convert_expr e).1.eval r.key = false) ∧
    (∀ r ∈ st.table, (convert_expr e).1.eval r.key = false →
      r ∈ (st.delItem e).table) ∧
    (st.contains k = false → st.delItem (.lit k) = st) := by
  refine ⟨delItem_table st e, ?_, ?_, delItem_lit_not_contains st k⟩
  · intro r hr
    rw [delItem_table] at hr
    have h2 := List.mem_filter.mp hr
    exact ⟨h2.1, by simpa using h2.2⟩
  · intro r hr hp
    rw [delItem_table]
    exact List.mem_filter.mpr ⟨hr, by simp [hp]⟩

theorem delete_matching_rows_witness :
    ((sampleStore.delItem (.pred (.inList ["a", "c"]))).table =
      [⟨"b", pickle_dumps (.int 1)⟩]) ∧
    (sampleStore.delItem (.lit "x") = sampleStore) := by
  have h1 := (delete_matching_rows sampleStore (.pred (.inList ["a", "c"]))
    "x").1
  have h2 := (delete_matching_rows sampleStore (.pred (.inList ["a", "c"]))
    "x").2.2.2 (by decide)
  refine ⟨?_, h2⟩
  rw [h1]
  decide

/-- C9: key uniqueness is an invariant of every reachable table state, and
re-setting a present key goes through the atomic upsert: the row count is
unchanged and the key reads back the new value (no second row). -/
theorem reachable_key_uniqueness (st : KeyStore) (h : Reachable st) :
    st.uniqueKeys ∧
    (∀ k v, st.contains k = true →
      (st.setItem (.lit k) v).size = st.size ∧
      (st.setItem (.lit k) v).getItem (.lit k) = .ok (.val v)) := by
  have hu := uniqueKeys_of_reachable h
  exact ⟨hu, fun k v hc =>
    ⟨size_setItem_lit_of_contains v hu hc, getItem_setItem_lit st k v⟩⟩

theorem reachable_key_uniqueness_witness :
    ((init false).setItem (.lit "a") (.str "A")).uniqueKeys ∧
    ((((init false).setItem (.lit "a") (.str "A")).setItem (.lit "a")
      (.str "A")).size =
      ((init false).setItem (.lit "a") (.str "A")).size) := by
  have h := reachable_key_uniqueness ((init false).setItem (.lit "a") (.str "A"))
    (Reachable.set (.lit "a") (.str "A") (Reachable.init false))
  exact ⟨h.1, (h.2 "a" (.str "A") (by decide)).1⟩

end KeyStore

end SqliteKV
